import Mathlib

/-!
Verification development for the distributed query fan-out layer and the
derived page-centrality builder of the stract repository.

The Rust sources are shallowly embedded:
* `replication.rs` — remote/replicated/sharded clients and their selectors.
  The network is modelled as a function `Nat → Option α` from replica
  addresses to the response a call to that address produces (`none` models
  any failed call: unreachable host, timeout, or deserialization error).
  Selectors are modelled as plain functions, matching the spec's requirement
  that selection is a pure function of the replica/shard list.
* `search_server.rs` — the request dispatch loop of a shard-local searcher.
* `derived_harmonic.rs` — the Bloom shard map and the three-pass derived
  centrality builder.  `f64` values are modelled as exact extended rationals
  (`F` below) with IEEE special values `nan`, `inf`, `neginf`; rounding is
  not modelled, but the special-value propagation of the operations the
  builder uses (add, mul, div, max) is.
-/

namespace Stract

/-! ### Sonic replication layer (replication.rs) -/

inductive SonicError where
  | unreachable
deriving DecidableEq

structure RemoteClient where
  addr : Nat
deriving DecidableEq

/-- `RemoteClient::send`: one RPC to a single address.  `net` is the network
state; `none` at an address models a failed call (connect retries exhausted,
per-call timeout, or a malformed response). -/
def RemoteClient.send {α : Type} (net : Nat → Option α) (c : RemoteClient) :
    Except SonicError α :=
  match net c.addr with
  | some r => Except.ok r
  | none => Except.error SonicError.unreachable

structure ReplicatedClient where
  clients : List RemoteClient
deriving DecidableEq

/-- The collection loop shared by `ReplicatedClient::send` and
`ShardedClient::send`: push the `Ok` payloads in order, log and drop the
`Err`s. -/
def collectOks {ε α : Type} : List (Except ε α) → List α
  | [] => []
  | Except.ok a :: rest => a :: collectOks rest
  | Except.error _ :: rest => collectOks rest

/-- `ReplicatedClient::send`: fan the request out to the selected replicas,
await all, keep the successes in dispatch order, and return `Ok`. -/
def ReplicatedClient.send {α : Type} (net : Nat → Option α)
    (rc : ReplicatedClient) (selector : List RemoteClient → List RemoteClient) :
    Except SonicError (List α) :=
  Except.ok (collectOks ((selector rc.clients).map (fun c => c.send net)))

structure Shard where
  id : Nat
  replicas : ReplicatedClient
deriving DecidableEq

structure ShardedClient where
  shards : List Shard
deriving DecidableEq

/-- `AllShardsSelector::select`: every shard in input order. -/
def AllShardsSelector.select (shards : List Shard) : List Shard := shards

/-- `AllReplicaSelector::select`: every replica in input order. -/
def AllReplicaSelector.select (replicas : List RemoteClient) : List RemoteClient :=
  replicas

/-- `SpecificShardSelector::select`: the first shard whose id matches, or none. -/
def SpecificShardSelector.select (i : Nat) (shards : List Shard) : List Shard :=
  (shards.find? (fun s => s.id == i)).toList

/-- `ShardedClient::send_single`: one shard's replicated call, tagged with the
shard id; the `?` on `replicas.send` propagates its error. -/
def ShardedClient.send_single {α : Type} (net : Nat → Option α) (shard : Shard)
    (replica_selector : List RemoteClient → List RemoteClient) :
    Except SonicError (Nat × List α) :=
  match shard.replicas.send net replica_selector with
  | Except.ok rs => Except.ok (shard.id, rs)
  | Except.error e => Except.error e

/-- `ShardedClient::send`: dispatch to every selected shard, join all, keep
the `Ok` entries in dispatch order, and return `Ok`. -/
def ShardedClient.send {α : Type} (net : Nat → Option α) (sc : ShardedClient)
    (shard_selector : List Shard → List Shard)
    (replica_selector : List RemoteClient → List RemoteClient) :
    Except SonicError (List (Nat × List α)) :=
  Except.ok (collectOks ((shard_selector sc.shards).map
    (fun s => ShardedClient.send_single net s replica_selector)))

theorem collectOks_map_ok {α β : Type} (f : α → β) (l : List α) :
    collectOks (l.map (fun x => (Except.ok (f x) : Except SonicError β))) = l.map f := by
  induction l with
  | nil => rfl
  | cons a t ih => simp [collectOks, ih]

theorem collectOks_map_sends {α : Type} (net : Nat → Option α) (l : List RemoteClient) :
    collectOks (l.map (fun c => c.send net)) = l.filterMap (fun c => net c.addr) := by
  induction l with
  | nil => rfl
  | cons c t ih =>
    simp only [List.map_cons, List.filterMap_cons]
    cases h : net c.addr with
    | none =>
      have hs : c.send net = Except.error SonicError.unreachable := by
        unfold RemoteClient.send; rw [h]
      rw [hs]; simpa [collectOks] using ih
    | some r =>
      have hs : c.send net = Except.ok r := by
        unfold RemoteClient.send; rw [h]
      rw [hs]; simp [collectOks, ih]

theorem replicated_send_eq {α : Type} (net : Nat → Option α)
    (rc : ReplicatedClient) (selector : List RemoteClient → List RemoteClient) :
    rc.send net selector =
      Except.ok ((selector rc.clients).filterMap (fun c => net c.addr)) := by
  unfold ReplicatedClient.send
  rw [collectOks_map_sends]

theorem ShardedClient.send_single_eq {α : Type} (net : Nat → Option α) (shard : Shard)
    (rsel : List RemoteClient → List RemoteClient) :
    ShardedClient.send_single net shard rsel =
      Except.ok (shard.id, (rsel shard.replicas.clients).filterMap (fun c => net c.addr)) := by
  unfold ShardedClient.send_single
  rw [replicated_send_eq]

theorem sharded_send_eq {α : Type} (net : Nat → Option α) (sc : ShardedClient)
    (ssel : List Shard → List Shard) (rsel : List RemoteClient → List RemoteClient) :
    sc.send net ssel rsel =
      Except.ok ((ssel sc.shards).map
        (fun s => (s.id, (rsel s.replicas.clients).filterMap (fun c => net c.addr)))) := by
  unfold ShardedClient.send
  congr 1
  simp only [ShardedClient.send_single_eq]
  exact collectOks_map_ok
    (fun s : Shard => (s.id, (rsel s.replicas.clients).filterMap (fun c => net c.addr))) _

theorem filterMap_congr_mem {α β : Type} {l : List α} {f g : α → Option β}
    (h : ∀ x ∈ l, f x = g x) : l.filterMap f = l.filterMap g := by
  induction l with
  | nil => rfl
  | cons a t ih =>
    simp only [List.filterMap_cons, h a (List.mem_cons_self a t)]
    cases g a <;> simp [ih (fun x hx => h x (List.mem_cons_of_mem a hx))]

/-- Claim C4: `ReplicatedClient::send` returns `Ok` with the vector of
successful responses (possibly empty), in dispatch order; failed per-replica
calls are discarded and no per-replica error is surfaced. -/
theorem c4_replicated_send_absorbs {α : Type} (net : Nat → Option α)
    (rc : ReplicatedClient) (selector : List RemoteClient → List RemoteClient) :
    rc.send net selector =
      Except.ok ((selector rc.clients).filterMap (fun c => net c.addr)) ∧
    (rc.send net selector).isOk = true :=
  ⟨replicated_send_eq net rc selector, by rw [replicated_send_eq]; rfl⟩

/-- Claim C10: `ShardedClient::send` always returns `Ok`, with exactly one
entry per selected shard, in selector order; a shard all of whose replica
calls failed still contributes an entry with an empty response vector. -/
theorem c10_sharded_send_total {α : Type} (net : Nat → Option α) (sc : ShardedClient)
    (ssel : List Shard → List Shard) (rsel : List RemoteClient → List RemoteClient) :
    ∃ l, sc.send net ssel rsel = Except.ok l ∧
      l.length = (ssel sc.shards).length ∧
      l = (ssel sc.shards).map
        (fun s => (s.id, (rsel s.replicas.clients).filterMap (fun c => net c.addr))) := by
  refine ⟨_, sharded_send_eq net sc ssel rsel, by simp, rfl⟩

/-- Claim C7: the vector returned by `ShardedClient::send` is ordered as the
shard selector ordered the shards, and each shard entry holds the successful
replica responses in the dispatch order given by the replica selector. -/
theorem c7_sharded_send_order {α : Type} (net : Nat → Option α) (sc : ShardedClient)
    (ssel : List Shard → List Shard) (rsel : List RemoteClient → List RemoteClient) :
    ∃ l, sc.send net ssel rsel = Except.ok l ∧
      l.map Prod.fst = (ssel sc.shards).map Shard.id ∧
      l.map Prod.snd = (ssel sc.shards).map
        (fun s => (rsel s.replicas.clients).filterMap (fun c => net c.addr)) := by
  refine ⟨_, sharded_send_eq net sc ssel rsel, ?_, ?_⟩ <;>
    simp [List.map_map, Function.comp]

/-- Concrete two-shard cluster used to exercise the fan-out layer: shard 0 has
one replica at address 0, shard 1 has one replica at address 1. -/
def cexCluster : ShardedClient :=
  ⟨[⟨0, ⟨[⟨0⟩]⟩⟩, ⟨1, ⟨[⟨1⟩]⟩⟩]⟩

/-- Network where only address 0 answers; shard 1 is unreachable. -/
def cexNet : Nat → Option Nat := fun a => if a == 0 then some 42 else none

/-- Fully healthy network agreeing with `cexNet` on address 0. -/
def cexNetHealthy : Nat → Option Nat := fun a => if a == 0 then some 42 else some 7

/-- Claim C1 counterexample: over a cluster of n = 2 shards with k = 1 shard
unreachable, `send` with the all-shards selector returns 2 entries — the dead
shard still contributes `(1, [])` — not n − k = 1 entries as the claim states. -/
theorem c1_counterexample :
    ShardedClient.send cexNet cexCluster AllShardsSelector.select
        AllReplicaSelector.select =
      Except.ok [(0, [42]), (1, [])] ∧
    List.length [((0 : Nat), [(42 : Nat)]), (1, [])] = 2 ∧
    ((2 : Nat) == cexCluster.shards.length - 1) = false := by
  exact ⟨rfl, rfl, rfl⟩

/-- Claim C1 (amended): with the all-shards selector, `send` surfaces no error
and returns exactly one entry per shard (n entries); a shard whose replica
calls all fail contributes an entry with an empty response vector; and each
shard's entry depends only on the network behaviour at that shard's own
replicas, so the choice of unreachable shards does not affect the entries of
healthy shards. -/
theorem c1_amended_degradation {α : Type} (net : Nat → Option α) (sc : ShardedClient)
    (rsel : List RemoteClient → List RemoteClient) :
    (∃ l, sc.send net AllShardsSelector.select rsel = Except.ok l ∧
      l.length = sc.shards.length ∧
      l = sc.shards.map
        (fun s => (s.id, (rsel s.replicas.clients).filterMap (fun c => net c.addr)))) ∧
    (∀ (net2 : Nat → Option α) (s : Shard), s ∈ sc.shards →
      (∀ c ∈ rsel s.replicas.clients, net c.addr = net2 c.addr) →
      (s.id, (rsel s.replicas.clients).filterMap (fun c => net c.addr)) =
        (s.id, (rsel s.replicas.clients).filterMap (fun c => net2 c.addr))) := by
  constructor
  · exact ⟨_, sharded_send_eq net sc AllShardsSelector.select rsel, by
      simp [AllShardsSelector.select], by simp [AllShardsSelector.select]⟩
  · intro net2 s _ hagree
    have : (rsel s.replicas.clients).filterMap (fun c => net c.addr) =
        (rsel s.replicas.clients).filterMap (fun c => net2 c.addr) :=
      filterMap_congr_mem (fun c hc => hagree c hc)
    rw [this]

/-- Witness for the amended claim C1 at a concrete cluster and network. -/
theorem c1_amended_degradation_witness :
    ((∃ l, ShardedClient.send cexNet cexCluster AllShardsSelector.select
        AllReplicaSelector.select = Except.ok l ∧
      l.length = cexCluster.shards.length ∧
      l = cexCluster.shards.map
        (fun s => (s.id, (AllReplicaSelector.select s.replicas.clients).filterMap
          (fun c => cexNet c.addr)))) ∧
    (∀ (net2 : Nat → Option Nat) (s : Shard), s ∈ cexCluster.shards →
      (∀ c ∈ AllReplicaSelector.select s.replicas.clients, cexNet c.addr = net2 c.addr) →
      (s.id, (AllReplicaSelector.select s.replicas.clients).filterMap
          (fun c => cexNet c.addr)) =
        (s.id, (AllReplicaSelector.select s.replicas.clients).filterMap
          (fun c => net2 c.addr)))) ∧
    ((⟨0, ⟨[⟨0⟩]⟩⟩ : Shard) ∈ cexCluster.shards ∧
      ∀ c ∈ AllReplicaSelector.select (⟨[⟨0⟩]⟩ : ReplicatedClient).clients,
        cexNet c.addr = cexNetHealthy c.addr) :=
  ⟨c1_amended_degradation cexNet cexCluster AllReplicaSelector.select,
    by decide, by decide⟩

/-! ### Search server dispatch loop (search_server.rs) -/

/-- Modelled from the spec: the framed transport's response envelope — a
`Content` payload on success or a distinct `Empty` tag for errors. -/
inductive SonicResponse (α : Type) where
  | content (body : α)
  | empty
deriving DecidableEq

/-- Discriminator for the error tag of the response envelope. -/
def SonicResponse.isEmpty {α : Type} : SonicResponse α → Bool
  | SonicResponse.empty => true
  | SonicResponse.content _ => false

/-- The request enum matched by the server's accept loop.  Payload types
(queries, urls, webpages) are external to the embedded core and are modelled
as `Nat`. -/
inductive SearcherRequest where
  | retrieveWebsites (websites : List Nat) (query : Nat)
  | search (query : Nat)
  | getWebpage (url : Nat)
deriving DecidableEq

/-- The three response payload shapes of the search service schema. -/
inductive ReplyBody where
  | retrievedWebpages (r : List Nat)
  | searchResult (r : Nat)
  | webpage (r : Option Nat)
deriving DecidableEq

/-- Modelled from the spec: the `LocalSearcher` the server delegates to is an
external collaborator; only its call signatures matter here.
`retrieve_websites` and `search_initial` are fallible, `get_webpage` returns
a plain `Option` and cannot fail. -/
structure LocalSearcher where
  retrieve_websites : List Nat → Nat → Except Unit (List Nat)
  search_initial : Nat → Bool → Except Unit Nat
  get_webpage : Nat → Option Nat

/-- The body of the server's accept loop in `run`: dispatch one request and
produce the response that is sent back. -/
def handleRequest (s : LocalSearcher) : SearcherRequest → SonicResponse ReplyBody
  | SearcherRequest.retrieveWebsites websites query =>
    match s.retrieve_websites websites query with
    | Except.ok response => SonicResponse.content (ReplyBody.retrievedWebpages response)
    | Except.error _ => SonicResponse.empty
  | SearcherRequest.search query =>
    match s.search_initial query false with
    | Except.ok result => SonicResponse.content (ReplyBody.searchResult result)
    | Except.error _ => SonicResponse.empty
  | SearcherRequest.getWebpage url =>
    SonicResponse.content (ReplyBody.webpage (s.get_webpage url))

/-- Searcher whose every lookup fails or comes up empty, used to exercise the
error paths of the dispatch loop. -/
def failingSearcher : LocalSearcher :=
  ⟨fun _ _ => Except.error (), fun _ _ => Except.error (), fun _ => none⟩

/-- Claim C9 counterexample: on a failed `GetWebpage` lookup the server does
not mirror the `Empty` error responses of `Search` and `RetrieveWebsites`: it
answers `Content(None)` — never the empty tag — while the same searcher's
`Search` and `RetrieveWebsites` failures do produce `Empty`. -/
theorem c9_counterexample :
    handleRequest failingSearcher (SearcherRequest.getWebpage 0) =
      SonicResponse.content (ReplyBody.webpage none) ∧
    (handleRequest failingSearcher (SearcherRequest.getWebpage 0)).isEmpty = false ∧
    handleRequest failingSearcher (SearcherRequest.search 0) =
      (SonicResponse.empty : SonicResponse ReplyBody) ∧
    handleRequest failingSearcher (SearcherRequest.retrieveWebsites [] 0) =
      (SonicResponse.empty : SonicResponse ReplyBody) := by
  exact ⟨rfl, rfl, rfl, rfl⟩

/-- Claim C9 (amended): for every `GetWebpage` request the server always
responds with a `Content` payload carrying `get_webpage`'s `Option<Webpage>`
result; a missing page is conveyed as `Content(None)`, and the `Empty` error
tag is never produced for `GetWebpage`, unlike `Search` and
`RetrieveWebsites` whose failures respond `Empty`. -/
theorem c9_amended_get_webpage (s : LocalSearcher) (url : Nat) :
    handleRequest s (SearcherRequest.getWebpage url) =
      SonicResponse.content (ReplyBody.webpage (s.get_webpage url)) ∧
    (handleRequest s (SearcherRequest.getWebpage url)).isEmpty = false := by
  exact ⟨rfl, rfl⟩

/-! ### Bloom shard map (derived_harmonic.rs, BloomMap) -/

/-- Modelled from the spec: `crate::bloom::BloomFilter` is external to the
embedded sources.  Per the spec it is a bit array; an item's hash
configuration determines the bit positions the item sets, and the union of
two filters of identical size and hash configuration is the bitwise OR of
their bit arrays.  The bit array is modelled as a total function from bit
position to bit; the shared configuration is the pair of an array `size` and
a hash family `hashes`, each hash giving a position modulo `size`. -/
structure BloomFilter where
  bits : Nat → Bool

def BloomFilter.new : BloomFilter := ⟨fun _ => false⟩

/-- Modelled from the spec: inserting an item sets the bits at its hashed
positions. -/
def BloomFilter.insert (size : Nat) (hashes : List (Nat → Nat))
    (bf : BloomFilter) (h : Nat) : BloomFilter :=
  ⟨fun j => bf.bits j || hashes.any (fun f => f h % size == j)⟩

/-- Modelled from the spec: membership checks that every hashed position is
set; no false negatives, false positives possible. -/
def BloomFilter.contains (size : Nat) (hashes : List (Nat → Nat))
    (bf : BloomFilter) (h : Nat) : Bool :=
  hashes.all (fun f => bf.bits (f h % size))

/-- Modelled from the spec: `BloomFilter::merge` ORs the other filter's bit
array into `self`. -/
def BloomFilter.merge (a b : BloomFilter) : BloomFilter :=
  ⟨fun j => a.bits j || b.bits j⟩

/-- The single-item bit mask an insertion ORs into the array. -/
def bloomMask (size : Nat) (hashes : List (Nat → Nat)) (h j : Nat) : Bool :=
  hashes.any (fun f => f h % size == j)

structure BloomMap where
  map : List BloomFilter

/-- `BloomMap::new`: `num_blooms` identically-configured empty partitions. -/
def BloomMap.new (num_blooms : Nat) : BloomMap :=
  ⟨List.replicate num_blooms BloomFilter.new⟩

/-- `BloomMap::insert`: route the item hash `h` to partition `h mod N` and
insert it there. -/
def BloomMap.insert (size : Nat) (hashes : List (Nat → Nat))
    (bm : BloomMap) (h : Nat) : BloomMap :=
  ⟨bm.map.set (h % bm.map.length)
    ((bm.map.getD (h % bm.map.length) BloomFilter.new).insert size hashes h)⟩

/-- `BloomMap::finalize`: pop the last partition (Rust `Vec::pop`) and fold
the remaining partitions into it with `merge`; `none` models the panic of
`pop().unwrap()` on an empty map. -/
def BloomMap.finalize (bm : BloomMap) : Option BloomFilter :=
  bm.map.getLast?.map (fun bf => bm.map.dropLast.foldl BloomFilter.merge bf)

theorem foldl_insert_bits (size : Nat) (hashes : List (Nat → Nat)) (X : List Nat)
    (b : BloomFilter) (j : Nat) :
    (X.foldl (BloomFilter.insert size hashes) b).bits j
      = (b.bits j || X.any (fun x => bloomMask size hashes x j)) := by
  induction X generalizing b with
  | nil => simp
  | cons x t ih =>
    simp only [List.foldl_cons, List.any_cons, ih]
    simp [BloomFilter.insert, bloomMask, Bool.or_assoc]

theorem foldl_merge_bits (l : List BloomFilter) (b : BloomFilter) (j : Nat) :
    (l.foldl BloomFilter.merge b).bits j = (b.bits j || l.any (fun bf => bf.bits j)) := by
  induction l generalizing b with
  | nil => simp
  | cons a t ih =>
    simp only [List.foldl_cons, List.any_cons, ih]
    simp [BloomFilter.merge, Bool.or_assoc]

theorem finalize_bits {bm : BloomMap} (hne : bm.map ≠ []) :
    ∃ bf, bm.finalize = some bf ∧ ∀ j, bf.bits j = bm.map.any (fun p => p.bits j) := by
  refine ⟨bm.map.dropLast.foldl BloomFilter.merge (bm.map.getLast hne), ?_, ?_⟩
  · unfold BloomMap.finalize
    rw [List.getLast?_eq_getLast bm.map hne]
    rfl
  · intro j
    rw [foldl_merge_bits]
    conv_rhs => rw [← List.dropLast_append_getLast hne]
    rw [List.any_append]
    simp [Bool.or_comm]

theorem any_set_or {α : Type} (d : α) (l : List α) (i : Nat) (hi : i < l.length)
    (p : α → Bool) (b : α) (q : Bool) (hb : p b = (p (l.getD i d) || q)) :
    (l.set i b).any p = (l.any p || q) := by
  induction l generalizing i with
  | nil => exact absurd hi (by simp)
  | cons a t ih =>
    cases i with
    | zero =>
      simp only [List.set_cons_zero, List.any_cons]
      rw [List.getD_cons_zero] at hb
      rw [hb, Bool.or_assoc, Bool.or_comm q, ← Bool.or_assoc]
    | succ i =>
      simp only [List.set_cons_succ, List.any_cons]
      rw [List.getD_cons_succ] at hb
      rw [ih i (by simpa using hi) hb, Bool.or_assoc]

theorem bloomMap_insert_length (size : Nat) (hashes : List (Nat → Nat))
    (bm : BloomMap) (x : Nat) :
    (BloomMap.insert size hashes bm x).map.length = bm.map.length := by
  simp [BloomMap.insert]

theorem bloomMap_insert_any (size : Nat) (hashes : List (Nat → Nat))
    (bm : BloomMap) (x j : Nat) (hlen : 0 < bm.map.length) :
    (BloomMap.insert size hashes bm x).map.any (fun bf => bf.bits j)
      = (bm.map.any (fun bf => bf.bits j) || bloomMask size hashes x j) := by
  unfold BloomMap.insert
  exact any_set_or BloomFilter.new bm.map (x % bm.map.length)
    (Nat.mod_lt x hlen) _ _ _ (by simp [BloomFilter.insert, bloomMask])

theorem bloomMap_foldl_length (size : Nat) (hashes : List (Nat → Nat))
    (X : List Nat) (bm : BloomMap) :
    (X.foldl (BloomMap.insert size hashes) bm).map.length = bm.map.length := by
  induction X generalizing bm with
  | nil => rfl
  | cons x t ih => rw [List.foldl_cons, ih, bloomMap_insert_length]

theorem bloomMap_foldl_any (size : Nat) (hashes : List (Nat → Nat))
    (X : List Nat) (bm : BloomMap) (j : Nat) (hlen : 0 < bm.map.length) :
    (X.foldl (BloomMap.insert size hashes) bm).map.any (fun bf => bf.bits j)
      = (bm.map.any (fun bf => bf.bits j) || X.any (fun x => bloomMask size hashes x j)) := by
  induction X generalizing bm with
  | nil => simp
  | cons x t ih =>
    simp only [List.foldl_cons, List.any_cons]
    rw [ih _ (by rw [bloomMap_insert_length]; exact hlen),
      bloomMap_insert_any size hashes bm x j hlen, Bool.or_assoc]

theorem replicate_any_false {α : Type} (n : Nat) (p : α → Bool) (a : α)
    (ha : p a = false) : (List.replicate n a).any p = false := by
  induction n with
  | zero => rfl
  | succ n ih => simp [List.replicate_succ, ha, ih]

theorem bloomMap_finalize_eq (n size : Nat) (hashes : List (Nat → Nat))
    (hn : 1 ≤ n) (X : List Nat) :
    (X.foldl (BloomMap.insert size hashes) (BloomMap.new n)).finalize
      = some (X.foldl (BloomFilter.insert size hashes) BloomFilter.new) := by
  have hlen : (X.foldl (BloomMap.insert size hashes) (BloomMap.new n)).map.length = n := by
    rw [bloomMap_foldl_length]; simp [BloomMap.new]
  have hne : (X.foldl (BloomMap.insert size hashes) (BloomMap.new n)).map ≠ [] := by
    intro h
    rw [h] at hlen
    simp at hlen
    omega
  obtain ⟨bf, hfin, hbits⟩ := finalize_bits hne
  rw [hfin]
  have hb : bf = X.foldl (BloomFilter.insert size hashes) BloomFilter.new := by
    have heq : bf.bits = (X.foldl (BloomFilter.insert size hashes) BloomFilter.new).bits := by
      funext j
      rw [hbits j, bloomMap_foldl_any size hashes X (BloomMap.new n) j
        (by simp [BloomMap.new]; omega), foldl_insert_bits]
      unfold BloomMap.new
      rw [replicate_any_false n _ BloomFilter.new rfl]
      simp [BloomFilter.new]
    calc bf = ⟨bf.bits⟩ := rfl
    _ = ⟨(X.foldl (BloomFilter.insert size hashes) BloomFilter.new).bits⟩ := by rw [heq]
    _ = X.foldl (BloomFilter.insert size hashes) BloomFilter.new := rfl
  rw [hb]

theorem bloom_no_false_negative (size : Nat) (hashes : List (Nat → Nat))
    (X : List Nat) (x : Nat) (hx : x ∈ X) :
    BloomFilter.contains size hashes
      (X.foldl (BloomFilter.insert size hashes) BloomFilter.new) x = true := by
  unfold BloomFilter.contains
  rw [List.all_eq_true]
  intro f hf
  rw [foldl_insert_bits]
  simp only [BloomFilter.new, Bool.false_or]
  rw [List.any_eq_true]
  exact ⟨x, hx, by unfold bloomMask; rw [List.any_eq_true]; exact ⟨f, hf, by simp⟩⟩

/-- Claim C5: for every N ≥ 1 partitions and every insertion trace, the
filter produced by `BloomMap::finalize` after inserting every item equals,
bit for bit, a single Bloom filter of the same size and hash configuration
into which every item of the trace was inserted sequentially. -/
theorem c5_bloom_finalize_eq_sequential (n size : Nat) (hashes : List (Nat → Nat))
    (X : List Nat) (hn : 1 ≤ n) :
    (X.foldl (BloomMap.insert size hashes) (BloomMap.new n)).finalize
      = some (X.foldl (BloomFilter.insert size hashes) BloomFilter.new) :=
  bloomMap_finalize_eq n size hashes hn X

/-- Witness for claim C5 at a concrete partition count, configuration and
trace. -/
theorem c5_bloom_finalize_eq_sequential_witness :
    1 ≤ 3 ∧
    ([5, 9, 5, 2].foldl (BloomMap.insert 4 [fun h => h, fun h => h + 1])
        (BloomMap.new 3)).finalize
      = some ([5, 9, 5, 2].foldl (BloomFilter.insert 4 [fun h => h, fun h => h + 1])
        BloomFilter.new) :=
  ⟨by decide,
    c5_bloom_finalize_eq_sequential 3 4 [fun h => h, fun h => h + 1] [5, 9, 5, 2]
      (by decide)⟩

/-! ### Exact model of the f64 values flowing through the builder -/

/-- Model of an `f64` as an exact extended rational: `nan`, the two
infinities, or an exact rational value.  Rounding is not modelled; the
special-value propagation of the operations the builder uses is. -/
inductive F where
  | nan : F
  | inf : F
  | neginf : F
  | val (q : ℚ) : F
deriving DecidableEq

/-- IEEE addition on exact extended rationals. -/
def F.add : F → F → F
  | F.nan, _ => F.nan
  | _, F.nan => F.nan
  | F.inf, F.neginf => F.nan
  | F.neginf, F.inf => F.nan
  | F.inf, _ => F.inf
  | _, F.inf => F.inf
  | F.neginf, _ => F.neginf
  | _, F.neginf => F.neginf
  | F.val a, F.val b => F.val (a + b)

/-- IEEE multiplication on exact extended rationals. -/
def F.mul : F → F → F
  | F.nan, _ => F.nan
  | _, F.nan => F.nan
  | F.inf, F.inf => F.inf
  | F.inf, F.neginf => F.neginf
  | F.neginf, F.inf => F.neginf
  | F.neginf, F.neginf => F.inf
  | F.inf, F.val b => if b = 0 then F.nan else if 0 < b then F.inf else F.neginf
  | F.val a, F.inf => if a = 0 then F.nan else if 0 < a then F.inf else F.neginf
  | F.neginf, F.val b => if b = 0 then F.nan else if 0 < b then F.neginf else F.inf
  | F.val a, F.neginf => if a = 0 then F.nan else if 0 < a then F.neginf else F.inf
  | F.val a, F.val b => F.val (a * b)

/-- IEEE division on exact extended rationals; `0 / 0` is `nan` and a
nonzero value divided by zero is a signed infinity. -/
def F.div : F → F → F
  | F.nan, _ => F.nan
  | _, F.nan => F.nan
  | F.inf, F.inf => F.nan
  | F.inf, F.neginf => F.nan
  | F.neginf, F.inf => F.nan
  | F.neginf, F.neginf => F.nan
  | F.inf, F.val b => if 0 ≤ b then F.inf else F.neginf
  | F.neginf, F.val b => if 0 ≤ b then F.neginf else F.inf
  | F.val _, F.inf => F.val 0
  | F.val _, F.neginf => F.val 0
  | F.val a, F.val b =>
    if b = 0 then (if a = 0 then F.nan else if 0 < a then F.inf else F.neginf)
    else F.val (a / b)

/-- Rust `f64::max`: ignores a `nan` operand. -/
def F.max : F → F → F
  | F.nan, b => b
  | a, F.nan => a
  | F.inf, _ => F.inf
  | _, F.inf => F.inf
  | F.neginf, b => b
  | a, F.neginf => a
  | F.val a, F.val b => F.val (Max.max a b)

/-- Whether an f64 value is a real number inside the closed unit interval. -/
def F.inUnit : F → Bool
  | F.val q => decide ((0 : ℚ) ≤ q) && decide (q ≤ (1 : ℚ))
  | _ => false

/-! ### Derived page centrality builder (derived_harmonic.rs) -/

/-- A web-graph node; enough of `webgraph::Node` to express the builder:
its own `NodeID` and the `NodeID` of its host. -/
structure Node where
  id : Nat
  hostId : Nat
deriving DecidableEq

/-- `Node::into_host`: the deterministic, idempotent, total projection of a
node to its host node. -/
def Node.into_host (n : Node) : Node := ⟨n.hostId, n.hostId⟩

/-- A directed page-level edge; `fr` and `dst` embed the Rust fields `from`
and `to`, both Lean keywords. -/
structure Edge where
  fr : Nat
  dst : Nat
deriving DecidableEq

/-- The page graph: `node_ids()` iteration and the edge set; incoming-edge
lookup and id resolution are derived from them. -/
structure Webgraph where
  nodeIds : List (Node × Nat)
  edges : List Edge

/-- `Webgraph::raw_ingoing_edges`: the edges whose destination is `id`. -/
def Webgraph.raw_ingoing_edges (g : Webgraph) (id : Nat) : List Edge :=
  g.edges.filter (fun e => e.dst == id)

/-- `Webgraph::id2node`: resolve a `NodeID` to its node. -/
def Webgraph.id2node (g : Webgraph) (id : Nat) : Option Node :=
  (g.nodeIds.find? (fun p => p.2 == id)).map Prod.fst

/-- Boolean linear order on nodes (Rust derives `Ord` on `Node`),
lexicographic on the fields. -/
def nodeLe (a b : Node) : Bool :=
  decide (a.id < b.id) || (a.id == b.id && decide (a.hostId ≤ b.hostId))

/-- Stable insertion into a sorted list, the inner loop of `sortBy`. -/
def insertSorted {α : Type} (le : α → α → Bool) (a : α) : List α → List α
  | [] => [a]
  | b :: t => if le a b then a :: b :: t else b :: insertSorted le a t

/-- Stable sort by a Boolean order; models Rust's stable `Vec::sort`, which
produces the same list as any stable sort by the same order. -/
def sortBy {α : Type} (le : α → α → Bool) : List α → List α
  | [] => []
  | a :: t => insertSorted le a (sortBy le t)

/-- Rust `Vec::dedup`: collapse each run of equal adjacent elements to a
single element. -/
def dedupAdj {α : Type} [DecidableEq α] : List α → List α
  | [] => []
  | [a] => [a]
  | a :: b :: rest =>
    if a = b then dedupAdj (b :: rest) else a :: dedupAdj (b :: rest)

/-- The host-deduplicated in-neighbour host nodes of page `id` (pass 2,
step 3): collect the incoming edges, resolve each source, project to host,
sort, dedup. -/
def ingoingHosts (g : Webgraph) (id : Nat) : List Node :=
  dedupAdj (sortBy nodeLe
    (((g.raw_ingoing_edges id).filterMap (fun e => g.id2node e.fr)).map Node.into_host))

/-- The votes sum of pass 2, step 4: sum the host harmonic scores of the
deduplicated in-neighbour hosts; missing hosts contribute nothing. -/
def votesFor (H : Nat → Option F) (g : Webgraph) (id : Nat) : F :=
  ((ingoingHosts g id).filterMap (fun n => H n.id)).foldl F.add (F.val 0)

/-- One update of the `norms` map: `entry(host).or_insert(0.0)` followed by
`*norm = norm.max(votes)`. -/
def normsUpdate (norms : List (Nat × F)) (host : Nat) (votes : F) : List (Nat × F) :=
  match norms.lookup host with
  | some _ => norms.map (fun p => if p.1 == host then (p.1, F.max p.2 votes) else p)
  | none => norms ++ [(host, F.max (F.val 0) votes)]

/-- The mutable state threaded through pass 2: the staging store
(`non_normalized`) insertion log and the `norms` map. -/
structure Pass2State where
  staging : List (Nat × F)
  norms : List (Nat × F)
deriving DecidableEq

/-- The body of the pass-2 loop for one `(node, id)` pair. -/
def pass2step (size : Nat) (hashes : List (Nat → Nat)) (H : Nat → Option F)
    (g : Webgraph) (hasOut : BloomFilter) (st : Pass2State) (p : Node × Nat) :
    Pass2State :=
  if BloomFilter.contains size hashes hasOut p.2 = true then
    match H ((p.1.into_host).id) with
    | some harmonic =>
      let votes := votesFor H g p.2
      { staging := st.staging ++ [(p.2, F.mul harmonic votes)]
        norms := normsUpdate st.norms ((p.1.into_host).id) votes }
    | none => st
  else st

/-- Pass 2 over the whole node iteration. -/
def pass2 (size : Nat) (hashes : List (Nat → Nat)) (H : Nat → Option F)
    (g : Webgraph) (hasOut : BloomFilter) : Pass2State :=
  g.nodeIds.foldl (pass2step size hashes H g hasOut) ⟨[], []⟩

/-- Pass 1: insert every edge source into an 8-partition Bloom shard map and
finalize it. -/
def hasOutgoingFilter (size : Nat) (hashes : List (Nat → Nat)) (g : Webgraph) :
    Option BloomFilter :=
  ((g.edges.map (fun e => e.fr)).foldl (BloomMap.insert size hashes)
    (BloomMap.new 8)).finalize

/-- The single sequential filter pass 1 is equivalent to. -/
def sourceFilter (size : Nat) (hashes : List (Nat → Nat)) (g : Webgraph) :
    BloomFilter :=
  (g.edges.map (fun e => e.fr)).foldl (BloomFilter.insert size hashes) BloomFilter.new

/-- One step of pass 3: resolve the staged id, fetch its host norm (both
`unwrap`s modelled as `Option.bind`) and write the normalized score. -/
def pass3step (g : Webgraph) (norms : List (Nat × F))
    (acc : Option (List (Nat × F))) (p : Nat × F) : Option (List (Nat × F)) := do
  let l ← acc
  let node ← g.id2node p.1
  let norm ← norms.lookup ((node.into_host).id)
  pure (l ++ [(p.1, F.div p.2 norm)])

/-- The full three-pass build, producing the insertion log of the final
store; `none` models a pass-3 `unwrap` panic. -/
def buildStore (size : Nat) (hashes : List (Nat → Nat)) (H : Nat → Option F)
    (g : Webgraph) : Option (List (Nat × F)) := do
  let hasOut ← hasOutgoingFilter size hashes g
  let st := pass2 size hashes H g hasOut
  st.staging.foldl (pass3step g st.norms) (some [])

inductive BuildError where
  | alreadyExists
  | panicked
deriving DecidableEq

/-- `DerivedCentrality::build` with its output-path precondition: `fs` is the
data stored at the output path (`none` when the path does not exist).
Returns the call's result paired with the data stored at the path after the
call.  `BuildError.panicked` models a pass-3 `unwrap` panic. -/
def build (size : Nat) (hashes : List (Nat → Nat)) (H : Nat → Option F)
    (g : Webgraph) (fs : Option (List (Nat × F))) :
    Except BuildError (List (Nat × F)) × Option (List (Nat × F)) :=
  match fs with
  | some d => (Except.error BuildError.alreadyExists, some d)
  | none =>
    match buildStore size hashes H g with
    | some s => (Except.ok s, some s)
    | none => (Except.error BuildError.panicked, none)

theorem hasOutgoingFilter_eq (size : Nat) (hashes : List (Nat → Nat))
    (g : Webgraph) :
    hasOutgoingFilter size hashes g = some (sourceFilter size hashes g) := by
  unfold hasOutgoingFilter sourceFilter
  exact bloomMap_finalize_eq 8 size hashes (by omega) (g.edges.map (fun e => e.fr))

/-- Claim C8: when the output path already exists, `build` fails with the
`AlreadyExists` error before performing any pass, and the data already stored
at the path is left unchanged by the failed call. -/
theorem c8_already_exists (size : Nat) (hashes : List (Nat → Nat))
    (H : Nat → Option F) (g : Webgraph) (d : List (Nat × F)) :
    build size hashes H g (some d) =
      (Except.error BuildError.alreadyExists, some d) :=
  rfl

theorem mem_insertSorted {α : Type} (le : α → α → Bool) (a x : α) (l : List α) :
    x ∈ insertSorted le a l ↔ x = a ∨ x ∈ l := by
  induction l with
  | nil => simp [insertSorted]
  | cons b t ih =>
    simp only [insertSorted]
    by_cases h : le a b = true
    · rw [if_pos h]
      simp only [List.mem_cons]
    · rw [if_neg h]
      simp only [List.mem_cons, ih]
      tauto

theorem mem_sortBy {α : Type} (le : α → α → Bool) (x : α) (l : List α) :
    x ∈ sortBy le l ↔ x ∈ l := by
  induction l with
  | nil => simp [sortBy]
  | cons a t ih =>
    simp only [sortBy, mem_insertSorted, ih, List.mem_cons]

theorem sorted_insertSorted {α : Type} (le : α → α → Bool)
    (htot : ∀ a b, (le a b || le b a) = true)
    (htrans : ∀ a b c, le a b = true → le b c = true → le a c = true)
    (a : α) (l : List α) (hl : l.Pairwise (fun x y => le x y = true)) :
    (insertSorted le a l).Pairwise (fun x y => le x y = true) := by
  induction l with
  | nil => simp [insertSorted]
  | cons b t ih =>
    obtain ⟨hb, ht⟩ := List.pairwise_cons.mp hl
    simp only [insertSorted]
    by_cases h : le a b = true
    · rw [if_pos h]
      refine List.pairwise_cons.mpr ⟨?_, hl⟩
      intro x hx
      rcases List.mem_cons.mp hx with rfl | hx'
      · exact h
      · exact htrans a b x h (hb x hx')
    · rw [if_neg h]
      have hba : le b a = true := by
        have h2 := htot a b
        cases h3 : le a b
        · rw [h3] at h2
          simpa using h2
        · exact absurd h3 h
      refine List.pairwise_cons.mpr ⟨?_, ih ht⟩
      intro x hx
      rcases (mem_insertSorted le a x t).mp hx with rfl | hx'
      · exact hba
      · exact hb x hx'

theorem sorted_sortBy {α : Type} (le : α → α → Bool)
    (htot : ∀ a b, (le a b || le b a) = true)
    (htrans : ∀ a b c, le a b = true → le b c = true → le a c = true)
    (l : List α) : (sortBy le l).Pairwise (fun x y => le x y = true) := by
  induction l with
  | nil => exact List.Pairwise.nil
  | cons a t ih => exact sorted_insertSorted le htot htrans a _ ih

theorem mem_dedupAdj {α : Type} [DecidableEq α] (l : List α) (x : α) :
    x ∈ dedupAdj l ↔ x ∈ l := by
  induction l with
  | nil => simp [dedupAdj]
  | cons a t ih =>
    cases t with
    | nil => simp [dedupAdj]
    | cons b r =>
      simp only [dedupAdj]
      by_cases h : a = b
      · rw [if_pos h, ih]
        subst h
        simp only [List.mem_cons]
        tauto
      · rw [if_neg h]
        simp only [List.mem_cons, ih]

theorem dedupAdj_pairwise_ne {α : Type} [DecidableEq α] (le : α → α → Bool)
    (hanti : ∀ a b, le a b = true → le b a = true → a = b) (l : List α)
    (hl : l.Pairwise (fun x y => le x y = true)) :
    (dedupAdj l).Pairwise (fun x y => ¬ (x = y)) := by
  induction l with
  | nil => exact List.Pairwise.nil
  | cons a t ih =>
    cases t with
    | nil => simp [dedupAdj]
    | cons b r =>
      obtain ⟨ha, hbl⟩ := List.pairwise_cons.mp hl
      simp only [dedupAdj]
      by_cases h : a = b
      · rw [if_pos h]
        exact ih hbl
      · rw [if_neg h]
        refine List.pairwise_cons.mpr ⟨?_, ih hbl⟩
        intro x hx heq
        rcases List.mem_cons.mp ((mem_dedupAdj (b :: r) x).mp hx) with rfl | hxr
        · exact h heq
        · have hbx : le b x = true := (List.pairwise_cons.mp hbl).1 x hxr
          have hba : le b a = true := by rw [heq]; exact hbx
          exact h (hanti a b (ha b (List.mem_cons_self b r)) hba)

theorem nodeLe_total (a b : Node) : (nodeLe a b || nodeLe b a) = true := by
  simp only [nodeLe, Bool.or_eq_true, Bool.and_eq_true, decide_eq_true_eq, beq_iff_eq]
  omega

theorem nodeLe_trans (a b c : Node) (h1 : nodeLe a b = true) (h2 : nodeLe b c = true) :
    nodeLe a c = true := by
  simp only [nodeLe, Bool.or_eq_true, Bool.and_eq_true, decide_eq_true_eq,
    beq_iff_eq] at h1 h2 ⊢
  omega

theorem nodeLe_antisymm (a b : Node) (h1 : nodeLe a b = true)
    (h2 : nodeLe b a = true) : a = b := by
  simp only [nodeLe, Bool.or_eq_true, Bool.and_eq_true, decide_eq_true_eq,
    beq_iff_eq] at h1 h2
  have h3 : a.id = b.id ∧ a.hostId = b.hostId := by omega
  cases a
  cases b
  simp only [Node.mk.injEq]
  simpa using h3

theorem ingoingHosts_shape (g : Webgraph) (id : Nat) (n : Node)
    (hn : n ∈ ingoingHosts g id) : n.id = n.hostId := by
  unfold ingoingHosts at hn
  rw [mem_dedupAdj, mem_sortBy] at hn
  obtain ⟨m, _, rfl⟩ := List.mem_map.mp hn
  rfl

/-- Claim C6: the pass-2 votes sum counts each in-neighbour host exactly
once, not once per edge: the deduplicated in-neighbour host list has no two
elements with the same host id, it contains exactly the hosts of the
incoming edges' sources, and the votes sum is the fold of the harmonic
lookups over that deduplicated list. -/
theorem c6_host_votes_once (H : Nat → Option F) (g : Webgraph) (id : Nat) :
    ((ingoingHosts g id).map Node.id).Nodup ∧
    (∀ n : Node, n ∈ ingoingHosts g id ↔
      n ∈ ((g.raw_ingoing_edges id).filterMap (fun e => g.id2node e.fr)).map
        Node.into_host) ∧
    votesFor H g id =
      ((ingoingHosts g id).filterMap (fun n => H n.id)).foldl F.add (F.val 0) := by
  refine ⟨?_, ?_, rfl⟩
  · have hsorted := sorted_sortBy nodeLe nodeLe_total nodeLe_trans
      (((g.raw_ingoing_edges id).filterMap (fun e => g.id2node e.fr)).map Node.into_host)
    have hpw := dedupAdj_pairwise_ne nodeLe nodeLe_antisymm _ hsorted
    have hne : (ingoingHosts g id).Pairwise (fun a b => Node.id a ≠ Node.id b) := by
      refine List.Pairwise.imp_of_mem ?_ hpw
      intro a b hma hmb hne2 hidEq
      have ha := ingoingHosts_shape g id a (by unfold ingoingHosts; exact hma)
      have hb := ingoingHosts_shape g id b (by unfold ingoingHosts; exact hmb)
      apply hne2
      cases a
      cases b
      simp only [Node.mk.injEq]
      simp only at ha hb hidEq
      omega
    exact List.pairwise_map.mpr hne
  · intro n
    unfold ingoingHosts
    rw [mem_dedupAdj, mem_sortBy]

/-- The pass-2 guard: a page is staged iff the pass-1 filter contains its id
and its host has a harmonic score. -/
def pass2Keep (size : Nat) (hashes : List (Nat → Nat)) (H : Nat → Option F)
    (hasOut : BloomFilter) (p : Node × Nat) : Bool :=
  BloomFilter.contains size hashes hasOut p.2 && (H ((p.1.into_host).id)).isSome

/-- The staging entry a kept page contributes in pass 2. -/
def stagedScore (H : Nat → Option F) (g : Webgraph) (p : Node × Nat) : Nat × F :=
  (p.2, F.mul ((H ((p.1.into_host).id)).getD (F.val 0)) (votesFor H g p.2))

theorem pass2_staging (size : Nat) (hashes : List (Nat → Nat)) (H : Nat → Option F)
    (g : Webgraph) (hasOut : BloomFilter) (l : List (Node × Nat)) (st : Pass2State) :
    (l.foldl (pass2step size hashes H g hasOut) st).staging
      = st.staging
        ++ (l.filter (pass2Keep size hashes H hasOut)).map (stagedScore H g) := by
  induction l generalizing st with
  | nil => simp
  | cons p t ih =>
    simp only [List.foldl_cons, List.filter_cons]
    rw [ih]
    by_cases hc : BloomFilter.contains size hashes hasOut p.2 = true
    · cases hH : H ((p.1.into_host).id) with
      | none =>
        have hkeep : pass2Keep size hashes H hasOut p = false := by
          simp [pass2Keep, hc, hH]
        have hstep : pass2step size hashes H g hasOut st p = st := by
          unfold pass2step
          rw [if_pos hc, hH]
        rw [hstep, hkeep]
        simp
      | some harmonic =>
        have hkeep : pass2Keep size hashes H hasOut p = true := by
          simp [pass2Keep, hc, hH]
        have hstep : (pass2step size hashes H g hasOut st p).staging
            = st.staging ++ [stagedScore H g p] := by
          unfold pass2step
          rw [if_pos hc, hH]
          simp [stagedScore, hH]
        rw [hkeep, hstep]
        simp
    · have hkeep : pass2Keep size hashes H hasOut p = false := by
        simp [pass2Keep, hc]
      have hstep : pass2step size hashes H g hasOut st p = st := by
        unfold pass2step
        rw [if_neg hc]
      rw [hstep, hkeep]
      simp

theorem lookup_map_update (norms : List (Nat × F)) (h : Nat) (v : F) (h' : Nat) :
    ((norms.map (fun p => if p.1 == h then (p.1, F.max p.2 v) else p)).lookup h').isSome
      = (norms.lookup h').isSome := by
  induction norms with
  | nil => rfl
  | cons q t ih =>
    obtain ⟨k, b⟩ := q
    simp only [List.map_cons]
    by_cases hq : (k == h) = true
    · rw [if_pos (by simpa using hq)]
      simp only [List.lookup]
      cases hk : h' == k
      · simpa using ih
      · rfl
    · rw [if_neg (by simpa using hq)]
      simp only [List.lookup]
      cases hk : h' == k
      · simpa using ih
      · rfl

theorem lookup_append_isSome (l l₂ : List (Nat × F)) (k : Nat) :
    ((l ++ l₂).lookup k).isSome = ((l.lookup k).isSome || (l₂.lookup k).isSome) := by
  induction l with
  | nil => simp [List.lookup]
  | cons q t ih =>
    obtain ⟨a, b⟩ := q
    simp only [List.cons_append, List.lookup]
    cases hk : k == a
    · simpa using ih
    · rfl

theorem lookup_isSome_normsUpdate (norms : List (Nat × F)) (h : Nat) (v : F)
    (h' : Nat) :
    ((normsUpdate norms h v).lookup h').isSome
      = ((norms.lookup h').isSome || (h' == h)) := by
  unfold normsUpdate
  cases hl : norms.lookup h with
  | some w =>
    rw [lookup_map_update]
    cases hh : h' == h
    · simp
    · have he : h' = h := by simpa using hh
      subst he
      rw [hl]
      simp
  | none =>
    rw [lookup_append_isSome]
    have hsingle : ((List.lookup h' [(h, F.max (F.val 0) v)]).isSome) = (h' == h) := by
      simp only [List.lookup]
      cases h' == h <;> rfl
    rw [hsingle]

theorem pass2_norms_mono (size : Nat) (hashes : List (Nat → Nat))
    (H : Nat → Option F) (g : Webgraph) (hasOut : BloomFilter)
    (l : List (Node × Nat)) (st : Pass2State) (h' : Nat)
    (hs : (st.norms.lookup h').isSome = true) :
    ((l.foldl (pass2step size hashes H g hasOut) st).norms.lookup h').isSome = true := by
  induction l generalizing st with
  | nil => exact hs
  | cons p t ih =>
    simp only [List.foldl_cons]
    apply ih
    unfold pass2step
    by_cases hc : BloomFilter.contains size hashes hasOut p.2 = true
    · rw [if_pos hc]
      cases hH : H ((p.1.into_host).id) with
      | none => exact hs
      | some harmonic =>
        simp only [lookup_isSome_normsUpdate, hs, Bool.true_or]
    · rw [if_neg hc]
      exact hs

theorem pass2_norms_kept (size : Nat) (hashes : List (Nat → Nat))
    (H : Nat → Option F) (g : Webgraph) (hasOut : BloomFilter) :
    ∀ (l : List (Node × Nat)) (st : Pass2State) (q : Node × Nat), q ∈ l →
      pass2Keep size hashes H hasOut q = true →
      (((l.foldl (pass2step size hashes H g hasOut) st).norms.lookup
        ((q.1.into_host).id)).isSome) = true := by
  intro l
  induction l with
  | nil => intro st q hq; cases hq
  | cons p t ih =>
    intro st q hq hk
    simp only [List.foldl_cons]
    rcases List.mem_cons.mp hq with rfl | hq'
    · apply pass2_norms_mono
      simp only [pass2Keep, Bool.and_eq_true] at hk
      obtain ⟨hc, hi⟩ := hk
      unfold pass2step
      rw [if_pos hc]
      cases hH : H ((q.1.into_host).id) with
      | none =>
        rw [hH] at hi
        cases hi
      | some harmonic =>
        simp only [lookup_isSome_normsUpdate, beq_self_eq_true, Bool.or_true]
    · exact ih _ q hq' hk

theorem pass3_keys (g : Webgraph) (norms : List (Nat × F)) :
    ∀ (staging l₀ : List (Nat × F)),
      (∀ p ∈ staging, ∃ n, g.id2node p.1 = some n ∧
        ((norms.lookup ((n.into_host).id)).isSome) = true) →
      ∃ final, staging.foldl (pass3step g norms) (some l₀) = some final ∧
        final.map Prod.fst = l₀.map Prod.fst ++ staging.map Prod.fst := by
  intro staging
  induction staging with
  | nil =>
    intro l₀ _
    exact ⟨l₀, rfl, by simp⟩
  | cons p t ih =>
    intro l₀ hpre
    obtain ⟨n, hn, hnorm⟩ := hpre p (List.mem_cons_self p t)
    obtain ⟨w, hw⟩ := Option.isSome_iff_exists.mp hnorm
    simp only [List.foldl_cons]
    have hstep : pass3step g norms (some l₀) p
        = some (l₀ ++ [(p.1, F.div p.2 w)]) := by
      simp only [pass3step, hn, hw, Option.pure_def, Option.bind_eq_bind,
        Option.some_bind]
    rw [hstep]
    obtain ⟨final, hf, hkeys⟩ := ih (l₀ ++ [(p.1, F.div p.2 w)])
      (fun r hr => hpre r (List.mem_cons_of_mem p hr))
    refine ⟨final, hf, ?_⟩
    rw [hkeys]
    simp

theorem find?_eq_of_mem_nodup :
    ∀ (l : List (Node × Nat)), (l.map Prod.snd).Nodup →
      ∀ (n : Node) (id : Nat), (n, id) ∈ l →
        l.find? (fun p => p.2 == id) = some (n, id) := by
  intro l
  induction l with
  | nil =>
    intro _ n id h
    cases h
  | cons q t ih =>
    intro hnodup n id hmem
    obtain ⟨m, i⟩ := q
    have hnodup' : i ∉ t.map Prod.snd ∧ (t.map Prod.snd).Nodup :=
      List.nodup_cons.mp hnodup
    rcases List.mem_cons.mp hmem with heq | hmem'
    · obtain ⟨rfl, rfl⟩ := Prod.mk.inj heq
      simp [List.find?]
    · have hne : (i == id) = false := by
        rw [beq_eq_false_iff_ne]
        intro hcontra
        subst hcontra
        exact hnodup'.1 (List.mem_map.mpr ⟨(n, i), hmem', rfl⟩)
      simp only [List.find?, hne]
      exact ih hnodup'.2 n id hmem'

theorem id2node_of_mem {g : Webgraph} (hnodup : (g.nodeIds.map Prod.snd).Nodup)
    {n : Node} {id : Nat} (hmem : (n, id) ∈ g.nodeIds) :
    g.id2node id = some n := by
  unfold Webgraph.id2node
  rw [find?_eq_of_mem_nodup g.nodeIds hnodup n id hmem]
  rfl

theorem mem_map_fst (l : List (Nat × F)) (id : Nat) :
    id ∈ l.map Prod.fst ↔ ∃ v, (id, v) ∈ l := by
  rw [List.mem_map]
  constructor
  · rintro ⟨⟨a, b⟩, hp, rfl⟩
    exact ⟨b, hp⟩
  · rintro ⟨v, hv⟩
    exact ⟨(id, v), hv, rfl⟩

/-- Claim C3 (amended): assuming the pass-1 Bloom filter has no false
positive on the graph's node ids, a node id is a key of the final store
produced by the build iff it is one of the graph's nodes, has at least one
outgoing edge, and its host is a key of the harmonic table.  The claim's
further condition — that at least one host-deduplicated in-neighbour's host
is ranked — does not hold of the code: a page with no ranked in-neighbour is
still written, with a votes sum of 0. -/
theorem c3_amended_presence (size : Nat) (hashes : List (Nat → Nat))
    (H : Nat → Option F) (g : Webgraph)
    (hnodup : (g.nodeIds.map Prod.snd).Nodup)
    (hnfp : ∀ p ∈ g.nodeIds,
      BloomFilter.contains size hashes (sourceFilter size hashes g) p.2 = true →
      ∃ e ∈ g.edges, e.fr = p.2) :
    ∃ final, buildStore size hashes H g = some final ∧
      ∀ id : Nat, (∃ v, (id, v) ∈ final) ↔
        ∃ n : Node, (n, id) ∈ g.nodeIds ∧ (∃ e ∈ g.edges, e.fr = id) ∧
          (H ((n.into_host).id)).isSome = true := by
  have hstag : (pass2 size hashes H g (sourceFilter size hashes g)).staging
      = (g.nodeIds.filter
          (pass2Keep size hashes H (sourceFilter size hashes g))).map
        (stagedScore H g) := by
    unfold pass2
    rw [pass2_staging]
    simp
  have hpre : ∀ p ∈ (pass2 size hashes H g (sourceFilter size hashes g)).staging,
      ∃ n, g.id2node p.1 = some n ∧
        (((pass2 size hashes H g (sourceFilter size hashes g)).norms.lookup
          ((n.into_host).id)).isSome) = true := by
    intro p hp
    rw [hstag] at hp
    obtain ⟨q, hqmem, rfl⟩ := List.mem_map.mp hp
    have hqfil := List.mem_filter.mp hqmem
    refine ⟨q.1, ?_, ?_⟩
    · show g.id2node q.2 = some q.1
      exact id2node_of_mem hnodup (by obtain ⟨a, b⟩ := q; exact hqfil.1)
    · unfold pass2
      exact pass2_norms_kept size hashes H g (sourceFilter size hashes g)
        g.nodeIds ⟨[], []⟩ q hqfil.1 hqfil.2
  obtain ⟨final, hfold, hkeys⟩ := pass3_keys g
    (pass2 size hashes H g (sourceFilter size hashes g)).norms
    (pass2 size hashes H g (sourceFilter size hashes g)).staging [] hpre
  refine ⟨final, ?_, ?_⟩
  · unfold buildStore
    rw [hasOutgoingFilter_eq]
    simpa using hfold
  · intro id
    rw [← mem_map_fst, hkeys]
    simp only [List.map_nil, List.nil_append]
    rw [hstag, List.map_map]
    constructor
    · intro hid
      obtain ⟨q, hqmem, hqid⟩ := List.mem_map.mp hid
      have hqfil := List.mem_filter.mp hqmem
      have hq2 : q.2 = id := hqid
      have hkeep := hqfil.2
      simp only [pass2Keep, Bool.and_eq_true] at hkeep
      obtain ⟨hc, hHs⟩ := hkeep
      refine ⟨q.1, ?_, ?_, hHs⟩
      · rw [← hq2]
        obtain ⟨a, b⟩ := q
        exact hqfil.1
      · exact hnfp q hqfil.1 hc |>.imp (fun e => And.imp_right (fun h => hq2 ▸ h))
    · rintro ⟨n, hmem, houtg, hHs⟩
      apply List.mem_map.mpr
      refine ⟨(n, id), ?_, rfl⟩
      apply List.mem_filter.mpr
      refine ⟨hmem, ?_⟩
      simp only [pass2Keep, Bool.and_eq_true]
      refine ⟨?_, hHs⟩
      obtain ⟨e, he, hefr⟩ := houtg
      have hin : id ∈ g.edges.map (fun e => e.fr) := List.mem_map.mpr ⟨e, he, hefr⟩
      exact bloom_no_false_negative size hashes _ id hin

/-- Concrete page graph: a single node, page 1 on host 10, with one outgoing
edge to page 2 and no incoming edges. -/
def c2Graph : Webgraph := ⟨[(⟨1, 10⟩, 1)], [⟨1, 2⟩]⟩

/-- Concrete harmonic table ranking host 10 with score 1. -/
def c2H : Nat → Option F := fun i => if i == 10 then some (F.val 1) else none

theorem c2_contains : BloomFilter.contains 4 [fun h => h]
    (sourceFilter 4 [fun h => h] c2Graph) 1 = true := by decide

theorem c2_pass2 :
    pass2 4 [fun h => h] c2H c2Graph (sourceFilter 4 [fun h => h] c2Graph)
      = ⟨[(1, F.val 0)], [(10, F.val 0)]⟩ := by
  have hm : F.mul (F.val 1) (F.val 0) = F.val 0 := by simp [F.mul]
  have hx : F.max (F.val 0) (F.val 0) = F.val 0 := by simp [F.max]
  have hv : votesFor c2H c2Graph 1 = F.val 0 := rfl
  have hstep : pass2step 4 [fun h => h] c2H c2Graph
      (sourceFilter 4 [fun h => h] c2Graph) ⟨[], []⟩ (⟨1, 10⟩, 1)
      = ⟨[(1, F.val 0)], [(10, F.val 0)]⟩ := by
    unfold pass2step
    rw [if_pos c2_contains]
    show Pass2State.mk ([] ++ [(1, F.mul (F.val 1) (votesFor c2H c2Graph 1))])
      (normsUpdate [] 10 (votesFor c2H c2Graph 1)) = _
    rw [hv, hm]
    show Pass2State.mk [(1, F.val 0)] ([] ++ [(10, F.max (F.val 0) (F.val 0))]) = _
    rw [hx]
    rfl
  unfold pass2
  rw [show c2Graph.nodeIds = [(⟨1, 10⟩, 1)] from rfl]
  simp only [List.foldl_cons, List.foldl_nil]
  exact hstep

/-- Claim C2 evaluated at the failing input: page 1 has an outgoing edge, its
host 10 is ranked with score 1 (a value inside the unit interval), and it has
no ranked in-neighbour, so its votes sum and its host norm are both 0; the
build divides 0 by 0 and writes `nan` — a value outside the closed unit
interval — to the final store. -/
theorem c2_nan_written :
    buildStore 4 [fun h => h] c2H c2Graph = some [(1, F.nan)] ∧
    F.inUnit F.nan = false ∧
    F.inUnit ((c2H 10).getD F.nan) = true := by
  refine ⟨?_, rfl, ?_⟩
  · have hdiv : F.div (F.val 0) (F.val 0) = F.nan := by simp [F.div]
    unfold buildStore
    rw [hasOutgoingFilter_eq]
    show ((pass2 4 [fun h => h] c2H c2Graph
        (sourceFilter 4 [fun h => h] c2Graph)).staging.foldl
      (pass3step c2Graph (pass2 4 [fun h => h] c2H c2Graph
        (sourceFilter 4 [fun h => h] c2Graph)).norms) (some [])) = _
    rw [c2_pass2]
    show List.foldl (pass3step c2Graph [(10, F.val 0)]) (some []) [(1, F.val 0)] = _
    simp only [List.foldl_cons, List.foldl_nil]
    show some ([] ++ [(1, F.div (F.val 0) (F.val 0))]) = _
    rw [hdiv]
    rfl
  · show (decide ((0 : ℚ) ≤ 1) && decide ((1 : ℚ) ≤ 1)) = true
    rw [decide_eq_true (by norm_num : (0 : ℚ) ≤ 1),
      decide_eq_true (by norm_num : (1 : ℚ) ≤ (1 : ℚ))]
    rfl

/-- Concrete page graph: page 1 on host 10 with an outgoing edge to page 2
on host 20; page 1 has no incoming edges, page 2 no outgoing ones. -/
def c3Graph : Webgraph := ⟨[(⟨1, 10⟩, 1), (⟨2, 20⟩, 2)], [⟨1, 2⟩]⟩

/-- Concrete harmonic table ranking only host 10. -/
def c3H : Nat → Option F := fun i => if i == 10 then some (F.val 1) else none

theorem c3_contains1 : BloomFilter.contains 4 [fun h => h]
    (sourceFilter 4 [fun h => h] c3Graph) 1 = true := by decide

theorem c3_contains2 : BloomFilter.contains 4 [fun h => h]
    (sourceFilter 4 [fun h => h] c3Graph) 2 = false := by decide

theorem c3_pass2 :
    pass2 4 [fun h => h] c3H c3Graph (sourceFilter 4 [fun h => h] c3Graph)
      = ⟨[(1, F.val 0)], [(10, F.val 0)]⟩ := by
  have hm : F.mul (F.val 1) (F.val 0) = F.val 0 := by simp [F.mul]
  have hx : F.max (F.val 0) (F.val 0) = F.val 0 := by simp [F.max]
  have hv : votesFor c3H c3Graph 1 = F.val 0 := rfl
  have hstep1 : pass2step 4 [fun h => h] c3H c3Graph
      (sourceFilter 4 [fun h => h] c3Graph) ⟨[], []⟩ (⟨1, 10⟩, 1)
      = ⟨[(1, F.val 0)], [(10, F.val 0)]⟩ := by
    unfold pass2step
    rw [if_pos c3_contains1]
    show Pass2State.mk ([] ++ [(1, F.mul (F.val 1) (votesFor c3H c3Graph 1))])
      (normsUpdate [] 10 (votesFor c3H c3Graph 1)) = _
    rw [hv, hm]
    show Pass2State.mk [(1, F.val 0)] ([] ++ [(10, F.max (F.val 0) (F.val 0))]) = _
    rw [hx]
    rfl
  have hstep2 : pass2step 4 [fun h => h] c3H c3Graph
      (sourceFilter 4 [fun h => h] c3Graph)
      ⟨[(1, F.val 0)], [(10, F.val 0)]⟩ (⟨2, 20⟩, 2)
      = ⟨[(1, F.val 0)], [(10, F.val 0)]⟩ := by
    unfold pass2step
    rw [if_neg (by simp [c3_contains2])]
  unfold pass2
  rw [show c3Graph.nodeIds = [(⟨1, 10⟩, 1), (⟨2, 20⟩, 2)] from rfl]
  simp only [List.foldl_cons, List.foldl_nil]
  rw [hstep1, hstep2]

/-- Claim C3 counterexample: page 1 has an outgoing edge and a ranked host
but not a single incoming edge — so none of its host-deduplicated
in-neighbours' hosts is in the table — yet its id is a key of the final
store (written with value `nan`), contradicting the claimed equivalence. -/
theorem c3_counterexample :
    buildStore 4 [fun h => h] c3H c3Graph = some [(1, F.nan)] ∧
    ingoingHosts c3Graph 1 = [] ∧
    (ingoingHosts c3Graph 1).filterMap (fun n => c3H n.id) = [] := by
  refine ⟨?_, rfl, rfl⟩
  have hdiv : F.div (F.val 0) (F.val 0) = F.nan := by simp [F.div]
  unfold buildStore
  rw [hasOutgoingFilter_eq]
  show ((pass2 4 [fun h => h] c3H c3Graph
      (sourceFilter 4 [fun h => h] c3Graph)).staging.foldl
    (pass3step c3Graph (pass2 4 [fun h => h] c3H c3Graph
      (sourceFilter 4 [fun h => h] c3Graph)).norms) (some [])) = _
  rw [c3_pass2]
  show List.foldl (pass3step c3Graph [(10, F.val 0)]) (some []) [(1, F.val 0)] = _
  simp only [List.foldl_cons, List.foldl_nil]
  show some ([] ++ [(1, F.div (F.val 0) (F.val 0))]) = _
  rw [hdiv]
  rfl

/-- Witness for the amended claim C3 at a concrete graph and table. -/
theorem c3_amended_presence_witness :
    ((c3Graph.nodeIds.map Prod.snd).Nodup ∧
      (∀ p ∈ c3Graph.nodeIds,
        BloomFilter.contains 4 [fun h => h]
          (sourceFilter 4 [fun h => h] c3Graph) p.2 = true →
        ∃ e ∈ c3Graph.edges, e.fr = p.2)) ∧
    (∃ final, buildStore 4 [fun h => h] c3H c3Graph = some final ∧
      ∀ id : Nat, (∃ v, (id, v) ∈ final) ↔
        ∃ n : Node, (n, id) ∈ c3Graph.nodeIds ∧ (∃ e ∈ c3Graph.edges, e.fr = id) ∧
          (c3H ((n.into_host).id)).isSome = true) :=
  ⟨⟨by decide, by decide⟩,
    c3_amended_presence 4 [fun h => h] c3H c3Graph (by decide) (by decide)⟩

end Stract
